import Mathlib

/-!
Verification development for the quaternion rotation component
(`src/osg/Quat.cpp` of the OpenSceneGraph repository snapshot).

The C++ code works on single-precision floats; we embed it shallowly over
the real numbers `ℝ`, the standard idealization for this numeric code.
Lean's total field operations model the C code's silent numeric
degeneracies: `x / 0 = 0` and `Real.sqrt` of a negative number being `0`
stand in for the NaN-bearing results the float code produces on the same
degenerate inputs (the spec's §7 "silent-degenerate contract").
`atan2` from `<math.h>` is modelled by `Complex.arg`, which agrees with
the mathematical atan2 on all inputs (including `atan2 0 0 = 0`).
-/

/-- The external 3-vector collaborator (`osg::Vec3`): three real components. -/
@[ext] structure Vec3 where
  x : ℝ
  y : ℝ
  z : ℝ

/-- The quaternion value type (`osg::Quat`): components `_fv[0..3] = (x,y,z,w)`. -/
@[ext] structure Quat where
  x : ℝ
  y : ℝ
  z : ℝ
  w : ℝ

/-- 3-component dot product (`vec1*vec2` in the source). -/
def Vec3.dot (a b : Vec3) : ℝ := a.x * b.x + a.y * b.y + a.z * b.z

/-- 3-component cross product (`vec1^vec2` in the source). -/
def Vec3.cross (a b : Vec3) : Vec3 :=
  ⟨a.y * b.z - a.z * b.y, a.z * b.x - a.x * b.z, a.x * b.y - a.y * b.x⟩

/-- Euclidean length of a `Vec3` (`vec.length()` in the source). -/
noncomputable def Vec3.length (v : Vec3) : ℝ :=
  Real.sqrt (v.x * v.x + v.y * v.y + v.z * v.z)

/-- A `Vec3` is nonzero when some component is nonzero. -/
def Vec3.nonzero (v : Vec3) : Prop := ¬(v.x = 0 ∧ v.y = 0 ∧ v.z = 0)

/-- `u` is parallel to `v`: a nonzero scalar multiple of it. -/
def parallelTo (u v : Vec3) : Prop :=
  ∃ mu : ℝ, mu ≠ 0 ∧ u = ⟨mu * v.x, mu * v.y, mu * v.z⟩

/-- The C library `atan2(y, x)`, modelled as the argument of the complex
number `x + y·i`; this is the mathematical two-argument arctangent with
range `(-π, π]` and `atan2 0 0 = 0`. -/
noncomputable def atan2 (y x : ℝ) : ℝ := Complex.arg (x + y * Complex.I)

/-- Euclidean norm of a quaternion viewed as a 4-vector. -/
noncomputable def quatNorm (q : Quat) : ℝ :=
  Real.sqrt (q.x * q.x + q.y * q.y + q.z * q.z + q.w * q.w)

/-- `Quat::makeRot(angle, x, y, z)` (Quat.cpp lines 17-31): negate the
angle ("convert to right handed coordinate system"), then set
`(x,y,z) * sin(halfangle) / ‖axis‖` and `w = cos(halfangle)`. -/
noncomputable def Quat.makeRot (angle x y z : ℝ) : Quat :=
  let a := -angle
  let inversenorm := 1 / Real.sqrt (x * x + y * y + z * z)
  let coshalfangle := Real.cos (0.5 * a)
  let sinhalfangle := Real.sin (0.5 * a)
  ⟨x * sinhalfangle * inversenorm,
   y * sinhalfangle * inversenorm,
   z * sinhalfangle * inversenorm,
   coshalfangle⟩

/-- `Quat::makeRot(angle, vec)` (Quat.cpp lines 34-37). -/
noncomputable def Quat.makeRotVec (angle : ℝ) (vec : Vec3) : Quat :=
  Quat.makeRot angle vec.x vec.y vec.z

/-- The index (0, 1 or 2) of the biggest-magnitude component of `vec1`,
mirroring the running-maximum scan of Quat.cpp lines 72-74 (ties keep the
earliest index, because the comparisons are strict). -/
noncomputable def biggestAxisPos (v : Vec3) : Fin 3 :=
  let biggest1 := |v.x|
  let bigposn1 : Fin 3 := 0
  let biggest2 := if |v.y| > biggest1 then |v.y| else biggest1
  let bigposn2 : Fin 3 := if |v.y| > biggest1 then 1 else bigposn1
  if |v.z| > biggest2 then 2 else bigposn2

/-- The helper vector of the opposite-vectors branch (Quat.cpp lines 75-76):
`(1,1,1)` with a zero written at the biggest-magnitude position of `v`. -/
noncomputable def oppositeHelper (v : Vec3) : Vec3 :=
  if biggestAxisPos v = 0 then ⟨0, 1, 1⟩
  else if biggestAxisPos v = 1 then ⟨1, 0, 1⟩
  else ⟨1, 1, 0⟩

/-- The rotation axis used by the opposite-vectors branch
(Quat.cpp line 77): `vec1 ^ temp`. -/
noncomputable def oppositeAxis (v : Vec3) : Vec3 := Vec3.cross v (oppositeHelper v)

/-- `Quat::makeRot(vec1, vec2)` (Quat.cpp lines 45-89): dispatch on
`cosangle = vec1·vec2 / (‖vec1‖·‖vec2‖)` with epsilon `0.00001`. -/
noncomputable def Quat.makeRotFromTo (vec1 vec2 : Vec3) : Quat :=
  let epsilon : ℝ := 0.00001
  let length1 := vec1.length
  let length2 := vec2.length
  let cosangle := Vec3.dot vec1 vec2 / (length1 * length2)
  if |cosangle - 1| < epsilon then
    Quat.makeRot 0 1 0 0
  else if |cosangle + 1| < epsilon then
    Quat.makeRotVec Real.pi (oppositeAxis vec1)
  else
    Quat.makeRotVec (Real.arccos cosangle) (Vec3.cross vec1 vec2)

/-- `Quat::getRot(angle, vec)` (Quat.cpp lines 95-109): returns the pair
(angle, axis) that the C code writes through its out-parameters. -/
noncomputable def Quat.getRot (q : Quat) : ℝ × Vec3 :=
  let sinhalfangle := Real.sqrt (q.x * q.x + q.y * q.y + q.z * q.z)
  (2 * atan2 sinhalfangle q.w,
   ⟨q.x / sinhalfangle, q.y / sinhalfangle, q.z / sinhalfangle⟩)

/-- The 4-component dot product `from.asVec4() * to.asVec4()` used by slerp. -/
def Quat.dot4 (a b : Quat) : ℝ := a.x * b.x + a.y * b.y + a.z * b.z + a.w * b.w

/-- `Quat::slerp(t, from, to)` (Quat.cpp lines 128-158). -/
noncomputable def Quat.slerp (t : ℝ) (f g : Quat) : Quat :=
  let epsilon : ℝ := 0.00001
  let cosomega := Quat.dot4 f g
  let scales : ℝ × ℝ :=
    if 1 - cosomega > epsilon then
      let omega := Real.arccos cosomega
      let sinomega := Real.sin omega
      (Real.sin ((1 - t) * omega) / sinomega, Real.sin (t * omega) / sinomega)
    else
      (1 - t, t)
  ⟨f.x * scales.1 + g.x * scales.2,
   f.y * scales.1 + g.y * scales.2,
   f.z * scales.1 + g.z * scales.2,
   f.w * scales.1 + g.w * scales.2⟩

/-- The external 4×4 matrix collaborator, addressed as `m (row) (col)`. -/
abbrev Mat4 := Matrix (Fin 4) (Fin 4) ℝ

/-- Concrete test matrix `diag(-1,-1,-1,1)` (trace `-3`), a witness input
for the non-positive-trace branch. -/
noncomputable def mDiagNeg : Mat4 :=
  Matrix.of ![![(-1 : ℝ), 0, 0, 0], ![0, -1, 0, 0], ![0, 0, -1, 0], ![0, 0, 0, 1]]

/-- Concrete test matrix `diag(2, 3/2, 3/2, 1)`, a witness input on which
the Shepperd scale `s` is exactly zero. -/
noncomputable def mSZero : Mat4 :=
  Matrix.of ![![(2 : ℝ), 0, 0, 0], ![0, 3 / 2, 0, 0], ![0, 0, 3 / 2, 0], ![0, 0, 0, 1]]

/-- `Quat::get(Matrix&)` (Quat.cpp lines 220-264): quaternion to matrix. -/
noncomputable def Quat.get (q : Quat) : Mat4 :=
  let x2 := q.x + q.x
  let y2 := q.y + q.y
  let z2 := q.z + q.z
  let xx := q.x * x2
  let xy := q.x * y2
  let xz := q.x * z2
  let yy := q.y * y2
  let yz := q.y * z2
  let zz := q.z * z2
  let wx := q.w * x2
  let wy := q.w * y2
  let wz := q.w * z2
  Matrix.of
    ![![1 - (yy + zz), xy - wz, xz + wy, 0],
      ![xy + wz, 1 - (xx + zz), yz - wx, 0],
      ![xz - wy, yz + wx, 1 - (xx + yy), 0],
      ![0, 0, 0, 1]]

/-- The cyclic successor array `int nxt[3] = {1, 2, 0}` of `Quat::set`. -/
def nxt : Fin 3 → Fin 3 := ![1, 2, 0]

/-- The diagonal index `i` chosen by the non-positive-trace branch of
`Quat::set` (Quat.cpp lines 193-197): the index of the largest diagonal
entry (ties keep the earliest index, because the comparisons are strict). -/
noncomputable def shepperdI (m : Mat4) : Fin 3 :=
  let i1 : Fin 3 := if m 1 1 > m 0 0 then 1 else 0
  if m 2 2 > m i1.castSucc i1.castSucc then 2 else i1

/-- The scale `s = sqrt((m(i,i) - (m(j,j) + m(k,k))) + 1.0)` of the
non-positive-trace branch of `Quat::set` (Quat.cpp line 201). -/
noncomputable def shepperdS (m : Mat4) : ℝ :=
  let i := shepperdI m
  let j := nxt i
  let k := nxt j
  Real.sqrt (m i.castSucc i.castSucc
    - (m j.castSucc j.castSucc + m k.castSucc k.castSucc) + 1)

/-- The non-positive-trace branch of `Quat::set` (Quat.cpp lines 190-216),
factored out of the `if` for reuse in the statements about it.  The array
writes `tq[i]`, `tq[3]`, `tq[j]`, `tq[k]` become `Function.update`s; the
guarded reciprocal `if (s != 0.0f) s = 0.5f/s;` is mirrored exactly. -/
noncomputable def Quat.setNeg (m : Mat4) : Quat :=
  let i := shepperdI m
  let j := nxt i
  let k := nxt j
  let s := shepperdS m
  let tqA : Fin 4 → ℝ := Function.update (fun _ => 0) i.castSucc (s * 0.5)
  let s2 := if s ≠ 0 then 0.5 / s else s
  let tqB := Function.update tqA 3
    ((m j.castSucc k.castSucc - m k.castSucc j.castSucc) * s2)
  let tqC := Function.update tqB j.castSucc
    ((m i.castSucc j.castSucc + m j.castSucc i.castSucc) * s2)
  let tqD := Function.update tqC k.castSucc
    ((m i.castSucc k.castSucc + m k.castSucc i.castSucc) * s2)
  ⟨tqD 0, tqD 1, tqD 2, tqD 3⟩

/-- `Quat::set(const Matrix&)` (Quat.cpp lines 166-217): matrix to
quaternion by the trace-based (Shepperd) algorithm. -/
noncomputable def Quat.set (m : Mat4) : Quat :=
  let tr := m 0 0 + m 1 1 + m 2 2
  if tr > 0 then
    let s := Real.sqrt (tr + 1)
    let w := s / 2
    let s2 := 0.5 / s
    ⟨(m 1 2 - m 2 1) * s2, (m 2 0 - m 0 2) * s2, (m 0 1 - m 1 0) * s2, w⟩
  else
    Quat.setNeg m

/-! ## Claim C1 -/

/-- Claim C1: `Quat::makeRot(angle, x, y, z)` negates the input angle and
sets `(x,y,z)·sin(halfangle)/‖axis‖` and `w = cos(halfangle)` of the
negated angle; for a nonzero axis the result is a unit quaternion and is
unchanged when the axis is scaled by any positive factor. -/
theorem makeRot_angleAxis_spec (a x y z : ℝ) (hv : ¬(x = 0 ∧ y = 0 ∧ z = 0)) :
    Quat.makeRot a x y z =
      ⟨x * Real.sin (0.5 * -a) / Real.sqrt (x * x + y * y + z * z),
       y * Real.sin (0.5 * -a) / Real.sqrt (x * x + y * y + z * z),
       z * Real.sin (0.5 * -a) / Real.sqrt (x * x + y * y + z * z),
       Real.cos (0.5 * -a)⟩ ∧
    quatNorm (Quat.makeRot a x y z) = 1 ∧
    ∀ c : ℝ, 0 < c → Quat.makeRot a (c * x) (c * y) (c * z) = Quat.makeRot a x y z := by
  have hn2 : 0 < x * x + y * y + z * z := by
    rcases eq_or_ne x 0 with hx | hx
    · rcases eq_or_ne y 0 with hy | hy
      · have hz : z ≠ 0 := fun hz => hv ⟨hx, hy, hz⟩
        nlinarith [mul_self_pos.mpr hz, mul_self_nonneg x, mul_self_nonneg y]
      · nlinarith [mul_self_pos.mpr hy, mul_self_nonneg x, mul_self_nonneg z]
    · nlinarith [mul_self_pos.mpr hx, mul_self_nonneg y, mul_self_nonneg z]
  have hsne : Real.sqrt (x * x + y * y + z * z) ≠ 0 := Real.sqrt_ne_zero'.mpr hn2
  have hmul : Real.sqrt (x * x + y * y + z * z) * Real.sqrt (x * x + y * y + z * z)
      = x * x + y * y + z * z := Real.mul_self_sqrt hn2.le
  refine ⟨?_, ?_, ?_⟩
  · simp only [Quat.makeRot, Quat.mk.injEq]
    refine ⟨by ring, by ring, by ring, trivial⟩
  · simp only [quatNorm, Quat.makeRot]
    rw [Real.sqrt_eq_one]
    field_simp
    linear_combination (x * x + y * y + z * z) * Real.sin_sq_add_cos_sq (0.5 * a)
  · intro c hc
    have hsqrt : Real.sqrt (c * x * (c * x) + c * y * (c * y) + c * z * (c * z))
        = c * Real.sqrt (x * x + y * y + z * z) := by
      have he : c * x * (c * x) + c * y * (c * y) + c * z * (c * z)
          = c ^ 2 * (x * x + y * y + z * z) := by ring
      rw [he, Real.sqrt_mul (by positivity), Real.sqrt_sq hc.le]
    simp only [Quat.makeRot, Quat.mk.injEq]
    rw [hsqrt]
    refine ⟨?_, ?_, ?_, trivial⟩ <;> field_simp <;> ring

/-- Witness for C1 at the concrete input `a = 0`, axis `(3, 0, 4)`, `c = 2`. -/
theorem makeRot_angleAxis_spec_witness :
    Quat.makeRot 0 3 0 4 =
      ⟨3 * Real.sin (0.5 * -0) / Real.sqrt (3 * 3 + 0 * 0 + 4 * 4),
       0 * Real.sin (0.5 * -0) / Real.sqrt (3 * 3 + 0 * 0 + 4 * 4),
       4 * Real.sin (0.5 * -0) / Real.sqrt (3 * 3 + 0 * 0 + 4 * 4),
       Real.cos (0.5 * -0)⟩ ∧
    quatNorm (Quat.makeRot 0 3 0 4) = 1 ∧
    Quat.makeRot 0 (2 * 3) (2 * 0) (2 * 4) = Quat.makeRot 0 3 0 4 := by
  obtain ⟨h1, h2, h3⟩ := makeRot_angleAxis_spec 0 3 0 4 (by norm_num)
  exact ⟨h1, h2, h3 2 (by norm_num)⟩

/-! ## Helper lemmas about `atan2` -/

/-- For a point with nonnegative second coordinate written as
`(cos θ, |sin θ|)`, `atan2` recovers `arccos (cos θ)`. -/
theorem atan2_abs_sin_cos (θ : ℝ) :
    atan2 |Real.sin θ| (Real.cos θ) = Real.arccos (Real.cos θ) := by
  have h1 : Real.cos (Real.arccos (Real.cos θ)) = Real.cos θ :=
    Real.cos_arccos (Real.neg_one_le_cos θ) (Real.cos_le_one θ)
  have h2 : Real.sin (Real.arccos (Real.cos θ)) = |Real.sin θ| := by
    rw [Real.sin_arccos,
      show (1 : ℝ) - Real.cos θ ^ 2 = Real.sin θ ^ 2 by
        linear_combination (-1 : ℝ) * Real.sin_sq_add_cos_sq θ,
      Real.sqrt_sq_eq_abs]
  have hmem : Real.arccos (Real.cos θ) ∈ Set.Ioc (-Real.pi) Real.pi := by
    constructor
    · have := Real.arccos_nonneg (Real.cos θ)
      have := Real.pi_pos
      linarith
    · exact Real.arccos_le_pi _
  have harg := Complex.arg_cos_add_sin_mul_I hmem
  rw [← Complex.ofReal_cos, ← Complex.ofReal_sin, h1, h2] at harg
  exact harg

/-- Angle reduction: for `sin θ ≠ 0`, `arccos (cos θ)` equals `θ` reduced
to the interval `(0, π)` up to the sign of `sin θ` and a multiple of `2π`. -/
theorem sign_mul_arccos_cos (θ : ℝ) (hs : Real.sin θ ≠ 0) :
    ∃ n : ℤ, (if 0 < Real.sin θ then (1 : ℝ) else -1) * Real.arccos (Real.cos θ)
      = θ - 2 * Real.pi * n := by
  have hπ := Real.pi_pos
  have h2π : (0 : ℝ) < 2 * Real.pi := by linarith
  refine ⟨round (θ / (2 * Real.pi)), ?_⟩
  set n : ℤ := round (θ / (2 * Real.pi)) with hn
  set r : ℝ := θ - 2 * Real.pi * n with hr
  have hrb : |θ / (2 * Real.pi) - n| ≤ 1 / 2 := abs_sub_round _
  have hrabs : |r| ≤ Real.pi := by
    have he : r = (θ / (2 * Real.pi) - n) * (2 * Real.pi) := by
      field_simp [hr]
    rw [he, abs_mul, abs_of_pos h2π]
    calc |θ / (2 * Real.pi) - ↑n| * (2 * Real.pi) ≤ 1 / 2 * (2 * Real.pi) :=
          mul_le_mul_of_nonneg_right hrb h2π.le
      _ = Real.pi := by ring
  have hθeq : θ = r + n * (2 * Real.pi) := by rw [hr]; ring
  have hcos : Real.cos θ = Real.cos r := by
    rw [hθeq, Real.cos_add_int_mul_two_pi]
  have hsin : Real.sin θ = Real.sin r := by
    rw [hθeq, Real.sin_add_int_mul_two_pi]
  have hrne : Real.sin r ≠ 0 := by rw [← hsin]; exact hs
  have hrlt : r < Real.pi :=
    lt_of_le_of_ne (abs_le.mp hrabs).2 fun h => hrne (h ▸ Real.sin_pi)
  have hrgt : -Real.pi < r :=
    lt_of_le_of_ne' (abs_le.mp hrabs).1 fun h => hrne (h ▸ by
      rw [← h]; rw [h]; simp [Real.sin_neg])
  have hrne0 : r ≠ 0 := fun h => hrne (h ▸ Real.sin_zero)
  rcases lt_or_gt_of_ne hrne0 with hneg | hpos
  · have hsr : Real.sin r < 0 := by
      have hpos' : 0 < Real.sin (-r) :=
        Real.sin_pos_of_pos_of_lt_pi (by linarith) (by linarith)
      rw [Real.sin_neg] at hpos'
      linarith
    rw [if_neg (by rw [hsin]; linarith), hcos]
    have harc : Real.arccos (Real.cos r) = -r := by
      rw [← Real.cos_neg, Real.arccos_cos (by linarith) (by linarith)]
    rw [harc]
    ring
  · have hsr : 0 < Real.sin r := Real.sin_pos_of_pos_of_lt_pi hpos hrlt
    rw [if_pos (by rw [hsin]; exact hsr), hcos,
      Real.arccos_cos hpos.le hrlt.le]
    ring

/-! ## Claim C7 -/

/-- Claim C7 (amended): for a quaternion whose vector part has nonzero
norm, `Quat::getRot` returns `angle = 2·atan2(√(x²+y²+z²), w)` and axis
`(x,y,z)/√(x²+y²+z²)`; the angle lies in the range `0..2π` (not `−π..π`
as claimed: the first `atan2` argument is a square root, hence
nonnegative, so `atan2` itself lies in `0..π`). -/
theorem getRot_formula_range (q : Quat)
    (h : Real.sqrt (q.x * q.x + q.y * q.y + q.z * q.z) ≠ 0) :
    (Quat.getRot q).1
        = 2 * atan2 (Real.sqrt (q.x * q.x + q.y * q.y + q.z * q.z)) q.w ∧
    0 ≤ (Quat.getRot q).1 ∧ (Quat.getRot q).1 ≤ 2 * Real.pi ∧
    (Quat.getRot q).2
        = ⟨q.x / Real.sqrt (q.x * q.x + q.y * q.y + q.z * q.z),
           q.y / Real.sqrt (q.x * q.x + q.y * q.y + q.z * q.z),
           q.z / Real.sqrt (q.x * q.x + q.y * q.y + q.z * q.z)⟩ := by
  have him : ((q.w : ℂ)
      + (Real.sqrt (q.x * q.x + q.y * q.y + q.z * q.z) : ℂ) * Complex.I).im
      = Real.sqrt (q.x * q.x + q.y * q.y + q.z * q.z) := by
    simp
  have h0 : 0 ≤ atan2 (Real.sqrt (q.x * q.x + q.y * q.y + q.z * q.z)) q.w := by
    unfold atan2
    exact Complex.arg_nonneg_iff.mpr (by rw [him]; exact Real.sqrt_nonneg _)
  have h1 : atan2 (Real.sqrt (q.x * q.x + q.y * q.y + q.z * q.z)) q.w ≤ Real.pi :=
    Complex.arg_le_pi _
  exact ⟨rfl, by simp only [Quat.getRot]; linarith,
    by simp only [Quat.getRot]; linarith, rfl⟩

/-- Witness for C7 at the concrete quaternion `(1, 0, 0, 0)`. -/
theorem getRot_formula_range_witness :
    (Quat.getRot ⟨1, 0, 0, 0⟩).1
        = 2 * atan2 (Real.sqrt (1 * 1 + 0 * 0 + 0 * 0)) 0 ∧
    0 ≤ (Quat.getRot ⟨1, 0, 0, 0⟩).1 ∧
    (Quat.getRot ⟨1, 0, 0, 0⟩).1 ≤ 2 * Real.pi ∧
    (Quat.getRot ⟨1, 0, 0, 0⟩).2
        = ⟨1 / Real.sqrt (1 * 1 + 0 * 0 + 0 * 0),
           0 / Real.sqrt (1 * 1 + 0 * 0 + 0 * 0),
           0 / Real.sqrt (1 * 1 + 0 * 0 + 0 * 0)⟩ :=
  getRot_formula_range ⟨1, 0, 0, 0⟩ (by
    rw [show (1 : ℝ) * 1 + 0 * 0 + 0 * 0 = 1 by norm_num, Real.sqrt_one]
    exact one_ne_zero)

/-- Counterexample to C7 as stated: at the unit quaternion
`(3/5, 0, 0, −4/5)` (whose vector-part norm `3/5` is nonzero) the angle
returned by `Quat::getRot` is strictly greater than `π`, so it does not
lie in the claimed range `−π..π`. -/
theorem getRot_angle_not_in_neg_pi_pi :
    Real.sqrt ((3 / 5 : ℝ) * (3 / 5) + 0 * 0 + 0 * 0) ≠ 0 ∧
    Real.pi < (Quat.getRot ⟨3 / 5, 0, 0, -4 / 5⟩).1 := by
  have hs : Real.sqrt ((3 / 5 : ℝ) * (3 / 5) + 0 * 0 + 0 * 0) = 3 / 5 := by
    rw [show ((3 / 5 : ℝ) * (3 / 5) + 0 * 0 + 0 * 0) = (3 / 5) ^ 2 by norm_num,
      Real.sqrt_sq (by norm_num)]
  constructor
  · rw [hs]; norm_num
  · have he : (Quat.getRot ⟨3 / 5, 0, 0, -4 / 5⟩).1 = 2 * atan2 (3 / 5) (-4 / 5) := by
      simp only [Quat.getRot]
      rw [hs]
    rw [he]
    have harg : Real.pi / 2 < atan2 (3 / 5) (-4 / 5) := by
      unfold atan2
      by_contra hle
      push_neg at hle
      rcases Complex.arg_le_pi_div_two_iff.mp hle with hre | him
      · norm_num at hre
      · norm_num at him
    linarith

/-! ## Claim C8 -/

/-- Claim C8: every operation is a total function producing a plain
numeric result, and the degenerate inputs produce degenerate numeric
values, not an error: a zero axis in `makeRot` yields the quadruple
`(0, 0, 0, cos(halfangle))` (the model's totalized `1/√0 = 0` standing in
for the unguarded float division), and querying the identity rotation
through `getRot` yields angle `0` and the degenerate axis `(0, 0, 0)`
(the model's `0/0 = 0` standing for the float code's NaN axis). -/
theorem silent_degenerate_contract :
    (∀ t : ℝ, ∀ f g : Quat, ∃ r : Quat, Quat.slerp t f g = r) ∧
    (∀ v1 v2 : Vec3, ∃ r : Quat, Quat.makeRotFromTo v1 v2 = r) ∧
    (∀ m : Mat4, ∃ r : Quat, Quat.set m = r) ∧
    (∀ a : ℝ, Quat.makeRot a 0 0 0 = ⟨0, 0, 0, Real.cos (0.5 * -a)⟩) ∧
    Quat.getRot ⟨0, 0, 0, 1⟩ = (0, ⟨0, 0, 0⟩) := by
  refine ⟨fun t f g => ⟨_, rfl⟩, fun v1 v2 => ⟨_, rfl⟩, fun m => ⟨_, rfl⟩, ?_, ?_⟩
  · intro a
    simp only [Quat.makeRot, Quat.mk.injEq]
    norm_num
  · have hz : Real.sqrt ((0 : ℝ) * 0 + 0 * 0 + 0 * 0) = 0 := by
      rw [show ((0 : ℝ) * 0 + 0 * 0 + 0 * 0) = 0 by norm_num, Real.sqrt_zero]
    have ha : atan2 0 1 = 0 := by
      unfold atan2
      norm_num [Complex.arg_one]
    simp only [Quat.getRot, hz, ha, Prod.mk.injEq, Vec3.mk.injEq]
    norm_num

/-! ## Claim C2 -/

/-- A nonzero 3-vector has positive squared norm. -/
theorem sum_sq_pos_of_nonzero (x y z : ℝ) (hv : ¬(x = 0 ∧ y = 0 ∧ z = 0)) :
    0 < x * x + y * y + z * z := by
  rcases eq_or_ne x 0 with hx | hx
  · rcases eq_or_ne y 0 with hy | hy
    · have hz : z ≠ 0 := fun hz => hv ⟨hx, hy, hz⟩
      nlinarith [mul_self_pos.mpr hz, mul_self_nonneg x, mul_self_nonneg y]
    · nlinarith [mul_self_pos.mpr hy, mul_self_nonneg x, mul_self_nonneg z]
  · nlinarith [mul_self_pos.mpr hx, mul_self_nonneg y, mul_self_nonneg z]

/-- Claim C2 (amended): for a nonzero axis `(x,y,z)` and an angle `a` that
is not a multiple of `2π` (so that `sin(a/2) ≠ 0`), `getRot ∘ makeRot`
yields an axis that is `± (x,y,z)/‖(x,y,z)‖`, and, with the matching sign
`c`, an angle with `c·angle ≡ −a (mod 2π)` — the fixed handedness
negation applied by `makeRot`. -/
theorem makeRot_getRot_roundtrip (a x y z : ℝ)
    (hv : ¬(x = 0 ∧ y = 0 ∧ z = 0)) (hsin : Real.sin (a / 2) ≠ 0) :
    ∃ (c : ℝ) (k : ℤ), (c = 1 ∨ c = -1) ∧
      (Quat.getRot (Quat.makeRot a x y z)).2
        = ⟨c * x / Real.sqrt (x * x + y * y + z * z),
           c * y / Real.sqrt (x * x + y * y + z * z),
           c * z / Real.sqrt (x * x + y * y + z * z)⟩ ∧
      c * (Quat.getRot (Quat.makeRot a x y z)).1 = -a + 2 * Real.pi * k := by
  have he : (0.5 : ℝ) * -a = -(a / 2) := by ring
  have hsx : Real.sin (0.5 * -a) = -Real.sin (a / 2) := by rw [he, Real.sin_neg]
  have hcx : Real.cos (0.5 * -a) = Real.cos (a / 2) := by rw [he, Real.cos_neg]
  have hn2 : 0 < x * x + y * y + z * z := sum_sq_pos_of_nonzero x y z hv
  have hsne : Real.sqrt (x * x + y * y + z * z) ≠ 0 := Real.sqrt_ne_zero'.mpr hn2
  have hq : Quat.makeRot a x y z
      = ⟨x * -Real.sin (a / 2) * (1 / Real.sqrt (x * x + y * y + z * z)),
         y * -Real.sin (a / 2) * (1 / Real.sqrt (x * x + y * y + z * z)),
         z * -Real.sin (a / 2) * (1 / Real.sqrt (x * x + y * y + z * z)),
         Real.cos (a / 2)⟩ := by
    simp only [Quat.makeRot, hsx, hcx]
  have hkey : x * -Real.sin (a / 2) * (1 / Real.sqrt (x * x + y * y + z * z))
        * (x * -Real.sin (a / 2) * (1 / Real.sqrt (x * x + y * y + z * z)))
      + y * -Real.sin (a / 2) * (1 / Real.sqrt (x * x + y * y + z * z))
        * (y * -Real.sin (a / 2) * (1 / Real.sqrt (x * x + y * y + z * z)))
      + z * -Real.sin (a / 2) * (1 / Real.sqrt (x * x + y * y + z * z))
        * (z * -Real.sin (a / 2) * (1 / Real.sqrt (x * x + y * y + z * z)))
      = Real.sin (a / 2) ^ 2 := by
    have hmul : Real.sqrt (x * x + y * y + z * z) * Real.sqrt (x * x + y * y + z * z)
        = x * x + y * y + z * z := Real.mul_self_sqrt hn2.le
    have h1 : (1 / Real.sqrt (x * x + y * y + z * z))
        * (1 / Real.sqrt (x * x + y * y + z * z)) = 1 / (x * x + y * y + z * z) := by
      rw [div_mul_div_comm, one_mul, hmul]
    calc x * -Real.sin (a / 2) * (1 / Real.sqrt (x * x + y * y + z * z))
          * (x * -Real.sin (a / 2) * (1 / Real.sqrt (x * x + y * y + z * z)))
        + y * -Real.sin (a / 2) * (1 / Real.sqrt (x * x + y * y + z * z))
          * (y * -Real.sin (a / 2) * (1 / Real.sqrt (x * x + y * y + z * z)))
        + z * -Real.sin (a / 2) * (1 / Real.sqrt (x * x + y * y + z * z))
          * (z * -Real.sin (a / 2) * (1 / Real.sqrt (x * x + y * y + z * z)))
        = (x * x + y * y + z * z) * Real.sin (a / 2) ^ 2
            * ((1 / Real.sqrt (x * x + y * y + z * z))
              * (1 / Real.sqrt (x * x + y * y + z * z))) := by ring
      _ = (x * x + y * y + z * z) * Real.sin (a / 2) ^ 2
            * (1 / (x * x + y * y + z * z)) := by rw [h1]
      _ = Real.sin (a / 2) ^ 2 := by field_simp
  have hround : Quat.getRot (Quat.makeRot a x y z)
      = (2 * Real.arccos (Real.cos (a / 2)),
         ⟨x * -Real.sin (a / 2) * (1 / Real.sqrt (x * x + y * y + z * z))
            / |Real.sin (a / 2)|,
          y * -Real.sin (a / 2) * (1 / Real.sqrt (x * x + y * y + z * z))
            / |Real.sin (a / 2)|,
          z * -Real.sin (a / 2) * (1 / Real.sqrt (x * x + y * y + z * z))
            / |Real.sin (a / 2)|⟩) := by
    rw [hq]
    simp only [Quat.getRot]
    rw [hkey, Real.sqrt_sq_eq_abs, atan2_abs_sin_cos (a / 2)]
  obtain ⟨n, hn⟩ := sign_mul_arccos_cos (a / 2) hsin
  refine ⟨-(if 0 < Real.sin (a / 2) then (1 : ℝ) else -1), 2 * n, ?_, ?_, ?_⟩
  · rcases lt_or_gt_of_ne hsin with hneg | hpos
    · left; rw [if_neg (by linarith)]; norm_num
    · right; rw [if_pos hpos]
  · rw [hround]
    rcases lt_or_gt_of_ne hsin with hneg | hpos
    · rw [if_neg (by linarith), abs_of_neg hneg]
      simp only [Vec3.mk.injEq]
      refine ⟨?_, ?_, ?_⟩ <;> field_simp <;> ring
    · rw [if_pos hpos, abs_of_pos hpos]
      simp only [Vec3.mk.injEq]
      refine ⟨?_, ?_, ?_⟩ <;> field_simp <;> ring
  · rw [hround]
    push_cast
    linear_combination (-2 : ℝ) * hn

/-- Witness for C2 at the concrete input `a = π`, axis `(1, 0, 0)`. -/
theorem makeRot_getRot_roundtrip_witness :
    ∃ (c : ℝ) (k : ℤ), (c = 1 ∨ c = -1) ∧
      (Quat.getRot (Quat.makeRot Real.pi 1 0 0)).2
        = ⟨c * 1 / Real.sqrt (1 * 1 + 0 * 0 + 0 * 0),
           c * 0 / Real.sqrt (1 * 1 + 0 * 0 + 0 * 0),
           c * 0 / Real.sqrt (1 * 1 + 0 * 0 + 0 * 0)⟩ ∧
      c * (Quat.getRot (Quat.makeRot Real.pi 1 0 0)).1 = -Real.pi + 2 * Real.pi * k :=
  makeRot_getRot_roundtrip Real.pi 1 0 0 (by norm_num)
    (by rw [Real.sin_pi_div_two]; exact one_ne_zero)

/-- Counterexample to C2 as stated: at angle `a = 0` (allowed by the
claim's "for every angle") with the nonzero axis `(1,0,0)`, the composed
`getRot (makeRot 0 (1,0,0))` returns the degenerate axis `(0,0,0)` (NaN
in the float code, `0/0 = 0` in the real model), which is not parallel
to `(1,0,0)`. -/
theorem makeRot_getRot_degenerate_axis :
    Vec3.nonzero ⟨1, 0, 0⟩ ∧
    ¬ parallelTo (Quat.getRot (Quat.makeRot 0 1 0 0)).2 ⟨1, 0, 0⟩ := by
  have hq : Quat.makeRot 0 1 0 0 = ⟨0, 0, 0, 1⟩ := by
    simp only [Quat.makeRot, Quat.mk.injEq]
    norm_num
  have haxis : (Quat.getRot ⟨(0 : ℝ), 0, 0, 1⟩).2 = ⟨0, 0, 0⟩ := by
    simp only [Quat.getRot]
    norm_num
  constructor
  · intro h
    exact one_ne_zero h.1
  · rw [hq, haxis]
    rintro ⟨mu, hmu, h⟩
    have hx := congrArg Vec3.x h
    simp only [Vec3.mk.injEq] at hx
    exact hmu (by linarith)

/-! ## Slerp branch lemmas (shared by C4 and C5) -/

/-- When `1 - cosomega > epsilon`, slerp takes the spherical branch. -/
theorem slerp_spherical (t : ℝ) (f g : Quat)
    (h : 1 - Quat.dot4 f g > 0.00001) :
    Quat.slerp t f g =
      ⟨f.x * (Real.sin ((1 - t) * Real.arccos (Quat.dot4 f g))
            / Real.sin (Real.arccos (Quat.dot4 f g)))
        + g.x * (Real.sin (t * Real.arccos (Quat.dot4 f g))
            / Real.sin (Real.arccos (Quat.dot4 f g))),
       f.y * (Real.sin ((1 - t) * Real.arccos (Quat.dot4 f g))
            / Real.sin (Real.arccos (Quat.dot4 f g)))
        + g.y * (Real.sin (t * Real.arccos (Quat.dot4 f g))
            / Real.sin (Real.arccos (Quat.dot4 f g))),
       f.z * (Real.sin ((1 - t) * Real.arccos (Quat.dot4 f g))
            / Real.sin (Real.arccos (Quat.dot4 f g)))
        + g.z * (Real.sin (t * Real.arccos (Quat.dot4 f g))
            / Real.sin (Real.arccos (Quat.dot4 f g))),
       f.w * (Real.sin ((1 - t) * Real.arccos (Quat.dot4 f g))
            / Real.sin (Real.arccos (Quat.dot4 f g)))
        + g.w * (Real.sin (t * Real.arccos (Quat.dot4 f g))
            / Real.sin (Real.arccos (Quat.dot4 f g)))⟩ := by
  simp only [Quat.slerp]
  rw [if_pos h]

/-- When `1 - cosomega ≤ epsilon`, slerp falls back to linear weights. -/
theorem slerp_linear (t : ℝ) (f g : Quat)
    (h : ¬(1 - Quat.dot4 f g > 0.00001)) :
    Quat.slerp t f g =
      ⟨f.x * (1 - t) + g.x * t, f.y * (1 - t) + g.y * t,
       f.z * (1 - t) + g.z * t, f.w * (1 - t) + g.w * t⟩ := by
  simp only [Quat.slerp]
  rw [if_neg h]

/-! ## Claim C4 -/

/-- Claim C4 (amended): for unit quaternions `a`, `b` that are not
antipodal (4-dot ≠ −1), `slerp(0,a,b) = a`, `slerp(1,a,b) = b`, and
`slerp(t,a,a) = a` for `t ∈ [0,1]`.  The antipodal exclusion is forced:
at `dot = −1` the spherical branch divides by `sin(acos(−1)) = 0`. -/
theorem slerp_endpoint_identities (a b : Quat) (t : ℝ)
    (ha : quatNorm a = 1) (hb : quatNorm b = 1)
    (hab : Quat.dot4 a b ≠ -1) :
    Quat.slerp 0 a b = a ∧ Quat.slerp 1 a b = b ∧
    (t ∈ Set.Icc (0 : ℝ) 1 → Quat.slerp t a a = a) := by
  simp only [quatNorm] at ha hb
  have ha2 : a.x * a.x + a.y * a.y + a.z * a.z + a.w * a.w = 1 :=
    Real.sqrt_eq_one.mp ha
  have hb2 : b.x * b.x + b.y * b.y + b.z * b.z + b.w * b.w = 1 :=
    Real.sqrt_eq_one.mp hb
  have hprod : (a.x * a.x + a.y * a.y + a.z * a.z + a.w * a.w)
      * (b.x * b.x + b.y * b.y + b.z * b.z + b.w * b.w) = 1 := by
    rw [ha2, hb2]; norm_num
  have hCS : Quat.dot4 a b ^ 2 ≤ 1 := by
    simp only [Quat.dot4]
    nlinarith [hprod, sq_nonneg (a.x * b.y - a.y * b.x),
      sq_nonneg (a.x * b.z - a.z * b.x), sq_nonneg (a.x * b.w - a.w * b.x),
      sq_nonneg (a.y * b.z - a.z * b.y), sq_nonneg (a.y * b.w - a.w * b.y),
      sq_nonneg (a.z * b.w - a.w * b.z)]
  have hge : (-1 : ℝ) ≤ Quat.dot4 a b := by nlinarith [hCS]
  have hgt : (-1 : ℝ) < Quat.dot4 a b := lt_of_le_of_ne hge (Ne.symm hab)
  have hdaa : Quat.dot4 a a = 1 := ha2
  refine ⟨?_, ?_, fun _ => ?_⟩
  · by_cases hcond : 1 - Quat.dot4 a b > 0.00001
    · have hd1 : Quat.dot4 a b < 1 := by
        have : (0.00001 : ℝ) > 0 := by norm_num
        linarith
      have hω0 : (0 : ℝ) < Real.arccos (Quat.dot4 a b) := Real.arccos_pos.mpr hd1
      have hωπ : Real.arccos (Quat.dot4 a b) < Real.pi :=
        lt_of_le_of_ne (Real.arccos_le_pi _)
          fun hπ => absurd (Real.arccos_eq_pi.mp hπ) (by linarith)
      have hsω : Real.sin (Real.arccos (Quat.dot4 a b)) ≠ 0 :=
        (Real.sin_pos_of_pos_of_lt_pi hω0 hωπ).ne'
      rw [slerp_spherical 0 a b hcond]
      ext <;>
        rw [show ((1 : ℝ) - 0) * Real.arccos (Quat.dot4 a b)
              = Real.arccos (Quat.dot4 a b) by ring,
            zero_mul, Real.sin_zero, div_self hsω, zero_div] <;>
        ring
    · rw [slerp_linear 0 a b hcond]
      ext <;> ring
  · by_cases hcond : 1 - Quat.dot4 a b > 0.00001
    · have hd1 : Quat.dot4 a b < 1 := by
        have : (0.00001 : ℝ) > 0 := by norm_num
        linarith
      have hω0 : (0 : ℝ) < Real.arccos (Quat.dot4 a b) := Real.arccos_pos.mpr hd1
      have hωπ : Real.arccos (Quat.dot4 a b) < Real.pi :=
        lt_of_le_of_ne (Real.arccos_le_pi _)
          fun hπ => absurd (Real.arccos_eq_pi.mp hπ) (by linarith)
      have hsω : Real.sin (Real.arccos (Quat.dot4 a b)) ≠ 0 :=
        (Real.sin_pos_of_pos_of_lt_pi hω0 hωπ).ne'
      rw [slerp_spherical 1 a b hcond]
      ext <;>
        rw [show ((1 : ℝ) - 1) * Real.arccos (Quat.dot4 a b) = 0 by ring,
            show (1 : ℝ) * Real.arccos (Quat.dot4 a b)
              = Real.arccos (Quat.dot4 a b) by ring,
            Real.sin_zero, div_self hsω, zero_div] <;>
        ring
    · rw [slerp_linear 1 a b hcond]
      ext <;> ring
  · have hcond : ¬(1 - Quat.dot4 a a > 0.00001) := by
      rw [hdaa]; norm_num
    rw [slerp_linear t a a hcond]
    ext <;> ring

/-- Witness for C4 at `a = (0,0,0,1)`, `b = (1,0,0,0)`, `t = 1/2`. -/
theorem slerp_endpoint_identities_witness :
    Quat.slerp 0 ⟨0, 0, 0, 1⟩ ⟨1, 0, 0, 0⟩ = ⟨0, 0, 0, 1⟩ ∧
    Quat.slerp 1 ⟨0, 0, 0, 1⟩ ⟨1, 0, 0, 0⟩ = ⟨1, 0, 0, 0⟩ ∧
    ((1 / 2 : ℝ) ∈ Set.Icc (0 : ℝ) 1 →
      Quat.slerp (1 / 2) ⟨0, 0, 0, 1⟩ ⟨0, 0, 0, 1⟩ = ⟨0, 0, 0, 1⟩) :=
  slerp_endpoint_identities ⟨0, 0, 0, 1⟩ ⟨1, 0, 0, 0⟩ (1 / 2)
    (by simp only [quatNorm]; rw [show (0 : ℝ) * 0 + 0 * 0 + 0 * 0 + 1 * 1 = 1 by
      norm_num]; exact Real.sqrt_one)
    (by simp only [quatNorm]; rw [show (1 : ℝ) * 1 + 0 * 0 + 0 * 0 + 0 * 0 = 1 by
      norm_num]; exact Real.sqrt_one)
    (by norm_num [Quat.dot4])

/-- Counterexample to C4 as stated: for the antipodal unit quaternions
`a = (0,0,0,1)` and `b = (0,0,0,−1)` the spherical branch is taken with
`sin(acos(−1)) = 0`, and the blend degenerates (`0/0`, NaN in the float
code), so `slerp(0, a, b) ≠ a`. -/
theorem slerp_antipodal_degenerate :
    quatNorm ⟨0, 0, 0, 1⟩ = 1 ∧ quatNorm ⟨0, 0, 0, -1⟩ = 1 ∧
    Quat.slerp 0 ⟨0, 0, 0, 1⟩ ⟨0, 0, 0, -1⟩ ≠ ⟨0, 0, 0, 1⟩ := by
  refine ⟨?_, ?_, ?_⟩
  · simp only [quatNorm]
    rw [show (0 : ℝ) * 0 + 0 * 0 + 0 * 0 + 1 * 1 = 1 by norm_num]
    exact Real.sqrt_one
  · simp only [quatNorm]
    rw [show (0 : ℝ) * 0 + 0 * 0 + 0 * 0 + (-1 : ℝ) * (-1) = 1 by norm_num]
    exact Real.sqrt_one
  · have hd : Quat.dot4 ⟨0, 0, 0, 1⟩ ⟨0, 0, 0, -1⟩ = -1 := by
      norm_num [Quat.dot4]
    have hcond : 1 - Quat.dot4 (⟨0, 0, 0, 1⟩ : Quat) ⟨0, 0, 0, -1⟩ > 0.00001 := by
      rw [hd]; norm_num
    rw [slerp_spherical 0 _ _ hcond, hd]
    intro hcontra
    have hw := congrArg Quat.w hcontra
    simp only at hw
    rw [Real.arccos_neg_one,
      show ((1 : ℝ) - 0) * Real.pi = Real.pi by ring,
      zero_mul, Real.sin_zero, Real.sin_pi] at hw
    norm_num at hw

/-! ## Claim C5 -/

/-- Claim C5: slerp computes `cosomega` as the 4-component dot product;
when `1 − cosomega > 1e-5` the result is the spherical blend
`from·sin((1−t)ω)/sin ω + to·sin(tω)/sin ω` with `ω = acos(cosomega)`,
otherwise the linear blend `from·(1−t) + to·t`; the sign of `cosomega`
is never inspected, so a negative `cosomega` still takes the spherical
branch with `ω > π/2` (the longer arc); and no renormalization is
applied to the blend, witnessed by two unit endpoints in the linear
regime whose midpoint blend has norm ≠ 1. -/
theorem slerp_formula_spec (t : ℝ) (f g : Quat) :
    (1 - Quat.dot4 f g > 0.00001 →
      Quat.slerp t f g =
        ⟨f.x * (Real.sin ((1 - t) * Real.arccos (Quat.dot4 f g))
              / Real.sin (Real.arccos (Quat.dot4 f g)))
          + g.x * (Real.sin (t * Real.arccos (Quat.dot4 f g))
              / Real.sin (Real.arccos (Quat.dot4 f g))),
         f.y * (Real.sin ((1 - t) * Real.arccos (Quat.dot4 f g))
              / Real.sin (Real.arccos (Quat.dot4 f g)))
          + g.y * (Real.sin (t * Real.arccos (Quat.dot4 f g))
              / Real.sin (Real.arccos (Quat.dot4 f g))),
         f.z * (Real.sin ((1 - t) * Real.arccos (Quat.dot4 f g))
              / Real.sin (Real.arccos (Quat.dot4 f g)))
          + g.z * (Real.sin (t * Real.arccos (Quat.dot4 f g))
              / Real.sin (Real.arccos (Quat.dot4 f g))),
         f.w * (Real.sin ((1 - t) * Real.arccos (Quat.dot4 f g))
              / Real.sin (Real.arccos (Quat.dot4 f g)))
          + g.w * (Real.sin (t * Real.arccos (Quat.dot4 f g))
              / Real.sin (Real.arccos (Quat.dot4 f g)))⟩) ∧
    (¬(1 - Quat.dot4 f g > 0.00001) →
      Quat.slerp t f g =
        ⟨f.x * (1 - t) + g.x * t, f.y * (1 - t) + g.y * t,
         f.z * (1 - t) + g.z * t, f.w * (1 - t) + g.w * t⟩) ∧
    (Quat.dot4 f g < 0 →
      1 - Quat.dot4 f g > 0.00001 ∧
      Real.pi / 2 < Real.arccos (Quat.dot4 f g)) ∧
    (quatNorm ⟨0, 0, 0, 1⟩ = 1 ∧
     quatNorm ⟨2000 / 1000001, 0, 0, 999999 / 1000001⟩ = 1 ∧
     quatNorm (Quat.slerp (1 / 2) ⟨0, 0, 0, 1⟩
       ⟨2000 / 1000001, 0, 0, 999999 / 1000001⟩) ≠ 1) := by
  refine ⟨slerp_spherical t f g, slerp_linear t f g, fun hneg => ⟨by linarith, ?_⟩,
    ?_, ?_, ?_⟩
  · rw [Real.arccos_eq_pi_div_two_sub_arcsin]
    have : Real.arcsin (Quat.dot4 f g) < 0 := Real.arcsin_lt_zero.mpr hneg
    linarith
  · simp only [quatNorm]
    rw [show (0 : ℝ) * 0 + 0 * 0 + 0 * 0 + 1 * 1 = 1 by norm_num]
    exact Real.sqrt_one
  · simp only [quatNorm]
    rw [show (2000 / 1000001 : ℝ) * (2000 / 1000001) + 0 * 0 + 0 * 0
        + 999999 / 1000001 * (999999 / 1000001) = 1 by norm_num]
    exact Real.sqrt_one
  · have hcond : ¬(1 - Quat.dot4 (⟨0, 0, 0, 1⟩ : Quat)
        ⟨2000 / 1000001, 0, 0, 999999 / 1000001⟩ > 0.00001) := by
      norm_num [Quat.dot4]
    rw [slerp_linear _ _ _ hcond]
    simp only [quatNorm]
    rw [Ne, Real.sqrt_eq_one]
    norm_num

/-- Witness for C5: the linear branch instantiated at
`t = 1/2`, `f = g = (0,0,0,1)` (where `1 − cosomega = 0 ≤ 1e-5`). -/
theorem slerp_formula_spec_witness :
    Quat.slerp (1 / 2) ⟨0, 0, 0, 1⟩ ⟨0, 0, 0, 1⟩ =
      ⟨0 * (1 - 1 / 2) + 0 * (1 / 2), 0 * (1 - 1 / 2) + 0 * (1 / 2),
       0 * (1 - 1 / 2) + 0 * (1 / 2), 1 * (1 - 1 / 2) + 1 * (1 / 2)⟩ :=
  (slerp_formula_spec (1 / 2) ⟨0, 0, 0, 1⟩ ⟨0, 0, 0, 1⟩).2.1
    (by norm_num [Quat.dot4])

/-! ## Claim C6 -/

/-- `makeRot(0, 1, 0, 0)` is the identity quaternion `(0,0,0,1)`. -/
theorem makeRot_zero_identity : Quat.makeRot 0 1 0 0 = ⟨0, 0, 0, 1⟩ := by
  simp only [Quat.makeRot, Quat.mk.injEq]
  norm_num

/-- Claim C6: `Quat::makeRot(vec1, vec2)` dispatches on
`cosangle = vec1·vec2/(‖vec1‖·‖vec2‖)` with epsilon `1e-5`:
coincident vectors give the identity quaternion `(0,0,0,1)` (realized as
`makeRot(0, 1,0,0)`); opposite vectors rotate by `π` about
`cross(vec1, helper)` with the helper `(1,1,1)` zeroed at the index of
`vec1`'s biggest-magnitude component; otherwise it delegates to
`makeRot(acos(cosangle), cross(vec1, vec2))`; in particular
`makeRotFromTo v v = (0,0,0,1)` for nonzero `v`. -/
theorem makeRotFromTo_dispatch (v1 v2 : Vec3) :
    (Quat.makeRot 0 1 0 0 = ⟨0, 0, 0, 1⟩) ∧
    (|Vec3.dot v1 v2 / (Vec3.length v1 * Vec3.length v2) - 1| < 0.00001 →
      Quat.makeRotFromTo v1 v2 = Quat.makeRot 0 1 0 0) ∧
    (¬(|Vec3.dot v1 v2 / (Vec3.length v1 * Vec3.length v2) - 1| < 0.00001) →
     |Vec3.dot v1 v2 / (Vec3.length v1 * Vec3.length v2) + 1| < 0.00001 →
      Quat.makeRotFromTo v1 v2 = Quat.makeRotVec Real.pi (oppositeAxis v1)) ∧
    (¬(|Vec3.dot v1 v2 / (Vec3.length v1 * Vec3.length v2) - 1| < 0.00001) →
     ¬(|Vec3.dot v1 v2 / (Vec3.length v1 * Vec3.length v2) + 1| < 0.00001) →
      Quat.makeRotFromTo v1 v2
        = Quat.makeRotVec
            (Real.arccos (Vec3.dot v1 v2 / (Vec3.length v1 * Vec3.length v2)))
            (Vec3.cross v1 v2)) ∧
    (v1.nonzero → Quat.makeRotFromTo v1 v1 = ⟨0, 0, 0, 1⟩) := by
  refine ⟨makeRot_zero_identity, fun h1 => ?_, fun h1 h2 => ?_, fun h1 h2 => ?_,
    fun hnz => ?_⟩
  · simp only [Quat.makeRotFromTo]
    rw [if_pos h1]
  · simp only [Quat.makeRotFromTo]
    rw [if_neg h1, if_pos h2]
  · simp only [Quat.makeRotFromTo]
    rw [if_neg h1, if_neg h2]
  · have hn2 : 0 < v1.x * v1.x + v1.y * v1.y + v1.z * v1.z :=
      sum_sq_pos_of_nonzero v1.x v1.y v1.z hnz
    have hlen : Vec3.length v1 * Vec3.length v1
        = v1.x * v1.x + v1.y * v1.y + v1.z * v1.z :=
      Real.mul_self_sqrt hn2.le
    have hc : Vec3.dot v1 v1 / (Vec3.length v1 * Vec3.length v1) = 1 := by
      rw [hlen]
      exact div_self hn2.ne'
    simp only [Quat.makeRotFromTo]
    rw [hc, if_pos (by norm_num)]
    exact makeRot_zero_identity

/-- Witness for C6: coincident input `v1 = v2 = (2, 0, 0)` lands in the
identity branch. -/
theorem makeRotFromTo_dispatch_witness :
    Quat.makeRotFromTo ⟨2, 0, 0⟩ ⟨2, 0, 0⟩ = ⟨0, 0, 0, 1⟩ :=
  (makeRotFromTo_dispatch ⟨2, 0, 0⟩ ⟨2, 0, 0⟩).2.2.2.2
    (by intro h; norm_num at h)

/-! ## Claim C10 -/

/-- A triple with some nonzero entry is a nonzero vector with nonzero
Euclidean norm. -/
theorem vec_sqrt_ne (A B C : ℝ) (h : ¬(A = 0 ∧ B = 0 ∧ C = 0)) :
    (⟨A, B, C⟩ : Vec3) ≠ ⟨0, 0, 0⟩ ∧ Real.sqrt (A * A + B * B + C * C) ≠ 0 := by
  constructor
  · intro he
    simp only [Vec3.mk.injEq] at he
    exact h he
  · exact Real.sqrt_ne_zero'.mpr (sum_sq_pos_of_nonzero A B C h)

/-- Claim C10: for every nonzero `from` vector, the axis
`cross(from, helper)` built by the opposite-vectors branch is itself
nonzero, so the delegated `makeRot`'s normalization divides by a nonzero
norm. -/
theorem oppositeAxis_safe (v : Vec3) (hv : v.nonzero) :
    oppositeAxis v ≠ ⟨0, 0, 0⟩ ∧
    Real.sqrt ((oppositeAxis v).x * (oppositeAxis v).x
      + (oppositeAxis v).y * (oppositeAxis v).y
      + (oppositeAxis v).z * (oppositeAxis v).z) ≠ 0 := by
  by_cases h1 : |v.y| > |v.x|
  · by_cases h2 : |v.z| > |v.y|
    · have hb : biggestAxisPos v = 2 := by
        simp only [biggestAxisPos, if_pos h1]
        rw [if_pos h2]
      have hh : oppositeHelper v = ⟨1, 1, 0⟩ := by
        unfold oppositeHelper
        rw [hb, if_neg (by decide : ¬(2 : Fin 3) = 0),
          if_neg (by decide : ¬(2 : Fin 3) = 1)]
      have haxis : oppositeAxis v
          = ⟨v.y * 0 - v.z * 1, v.z * 1 - v.x * 0, v.x * 1 - v.y * 1⟩ := by
        unfold oppositeAxis
        rw [hh]
        rfl
      have hz : v.z ≠ 0 := by
        intro h0
        rw [h0, abs_zero] at h2
        linarith [abs_nonneg v.y]
      rw [haxis]
      exact vec_sqrt_ne _ _ _ fun hc => hz (by linarith [hc.1])
    · have hb : biggestAxisPos v = 1 := by
        simp only [biggestAxisPos, if_pos h1]
        rw [if_neg h2]
      have hh : oppositeHelper v = ⟨1, 0, 1⟩ := by
        unfold oppositeHelper
        rw [hb, if_neg (by decide : ¬(1 : Fin 3) = 0),
          if_pos (by decide : (1 : Fin 3) = 1)]
      have haxis : oppositeAxis v
          = ⟨v.y * 1 - v.z * 0, v.z * 1 - v.x * 1, v.x * 0 - v.y * 1⟩ := by
        unfold oppositeAxis
        rw [hh]
        rfl
      have hy : v.y ≠ 0 := by
        intro h0
        rw [h0, abs_zero] at h1
        linarith [abs_nonneg v.x]
      rw [haxis]
      exact vec_sqrt_ne _ _ _ fun hc => hy (by linarith [hc.1])
  · by_cases h2 : |v.z| > |v.x|
    · have hb : biggestAxisPos v = 2 := by
        simp only [biggestAxisPos, if_neg h1]
        rw [if_pos h2]
      have hh : oppositeHelper v = ⟨1, 1, 0⟩ := by
        unfold oppositeHelper
        rw [hb, if_neg (by decide : ¬(2 : Fin 3) = 0),
          if_neg (by decide : ¬(2 : Fin 3) = 1)]
      have haxis : oppositeAxis v
          = ⟨v.y * 0 - v.z * 1, v.z * 1 - v.x * 0, v.x * 1 - v.y * 1⟩ := by
        unfold oppositeAxis
        rw [hh]
        rfl
      have hz : v.z ≠ 0 := by
        intro h0
        rw [h0, abs_zero] at h2
        linarith [abs_nonneg v.x]
      rw [haxis]
      exact vec_sqrt_ne _ _ _ fun hc => hz (by linarith [hc.1])
    · have hb : biggestAxisPos v = 0 := by
        simp only [biggestAxisPos, if_neg h1]
        rw [if_neg h2]
      have hh : oppositeHelper v = ⟨0, 1, 1⟩ := by
        unfold oppositeHelper
        rw [hb, if_pos rfl]
      have haxis : oppositeAxis v
          = ⟨v.y * 1 - v.z * 1, v.z * 0 - v.x * 1, v.x * 1 - v.y * 0⟩ := by
        unfold oppositeAxis
        rw [hh]
        rfl
      have hx : v.x ≠ 0 := by
        intro h0
        apply hv
        rw [h0, abs_zero] at h1 h2
        push_neg at h1 h2
        refine ⟨h0, ?_, ?_⟩
        · exact abs_eq_zero.mp (le_antisymm h1 (abs_nonneg _))
        · exact abs_eq_zero.mp (le_antisymm h2 (abs_nonneg _))
      rw [haxis]
      exact vec_sqrt_ne _ _ _ fun hc => hx (by linarith [hc.2.2])

/-- Witness for C10 at the concrete vector `(1, 0, 0)`. -/
theorem oppositeAxis_safe_witness :
    oppositeAxis ⟨1, 0, 0⟩ ≠ ⟨0, 0, 0⟩ ∧
    Real.sqrt ((oppositeAxis ⟨1, 0, 0⟩).x * (oppositeAxis ⟨1, 0, 0⟩).x
      + (oppositeAxis ⟨1, 0, 0⟩).y * (oppositeAxis ⟨1, 0, 0⟩).y
      + (oppositeAxis ⟨1, 0, 0⟩).z * (oppositeAxis ⟨1, 0, 0⟩).z) ≠ 0 :=
  oppositeAxis_safe ⟨1, 0, 0⟩ (by intro h; norm_num at h)

/-! ## Claim C9 -/

/-- Index embedding fact used to evaluate the Shepperd branch. -/
theorem castSucc0 : (0 : Fin 3).castSucc = (0 : Fin 4) := rfl

/-- Index embedding fact used to evaluate the Shepperd branch. -/
theorem castSucc1 : (1 : Fin 3).castSucc = (1 : Fin 4) := rfl

/-- Index embedding fact used to evaluate the Shepperd branch. -/
theorem castSucc2 : (2 : Fin 3).castSucc = (2 : Fin 4) := rfl

/-- Claim C9: in the non-positive-trace branch of `Quat::set` the scale
`s` is in fact never zero (so `0.5/s` never divides by zero there), and
moreover — as the claim states — on any input where `s = 0` the guarded
branch assigns `0` to all four quaternion components. -/
theorem set_neg_branch_guard (m : Mat4) :
    (¬(m 0 0 + m 1 1 + m 2 2 > 0) → shepperdS m ≠ 0) ∧
    (shepperdS m = 0 → Quat.setNeg m = ⟨0, 0, 0, 0⟩) := by
  constructor
  · intro htr
    push_neg at htr
    by_cases h1 : m 1 1 > m 0 0
    · by_cases h2 : m 2 2 > m 1 1
      · have hI : shepperdI m = 2 := by
          simp only [shepperdI]
          rw [if_pos h1, castSucc1, if_pos h2]
        have hS : shepperdS m = Real.sqrt (m 2 2 - (m 0 0 + m 1 1) + 1) := by
          unfold shepperdS
          rw [hI]
          rfl
        rw [hS]
        apply Real.sqrt_ne_zero'.mpr
        linarith
      · have hI : shepperdI m = 1 := by
          simp only [shepperdI]
          rw [if_pos h1, castSucc1, if_neg h2]
        have hS : shepperdS m = Real.sqrt (m 1 1 - (m 2 2 + m 0 0) + 1) := by
          unfold shepperdS
          rw [hI]
          rfl
        rw [hS]
        apply Real.sqrt_ne_zero'.mpr
        have h2' : m 2 2 ≤ m 1 1 := not_lt.mp h2
        linarith
    · have h1' : m 1 1 ≤ m 0 0 := not_lt.mp h1
      by_cases h2 : m 2 2 > m 0 0
      · have hI : shepperdI m = 2 := by
          simp only [shepperdI]
          rw [if_neg h1, castSucc0, if_pos h2]
        have hS : shepperdS m = Real.sqrt (m 2 2 - (m 0 0 + m 1 1) + 1) := by
          unfold shepperdS
          rw [hI]
          rfl
        rw [hS]
        apply Real.sqrt_ne_zero'.mpr
        linarith
      · have h2' : m 2 2 ≤ m 0 0 := not_lt.mp h2
        have hI : shepperdI m = 0 := by
          simp only [shepperdI]
          rw [if_neg h1, castSucc0, if_neg h2]
        have hS : shepperdS m = Real.sqrt (m 0 0 - (m 1 1 + m 2 2) + 1) := by
          unfold shepperdS
          rw [hI]
          rfl
        rw [hS]
        apply Real.sqrt_ne_zero'.mpr
        linarith
  · intro hz
    simp only [Quat.setNeg]
    rw [hz, if_neg (by simp : ¬((0 : ℝ) ≠ 0))]
    simp [Function.update_apply]

/-- Witness for C9: the trace of `mDiagNeg` is `-3 ≤ 0` and its Shepperd
scale is nonzero; on `mSZero` the scale is exactly `0` and the branch
assigns all four components to `0`. -/
theorem set_neg_branch_guard_witness :
    shepperdS mDiagNeg ≠ 0 ∧ Quat.setNeg mSZero = ⟨0, 0, 0, 0⟩ := by
  constructor
  · apply (set_neg_branch_guard mDiagNeg).1
    rw [show mDiagNeg 0 0 = (-1 : ℝ) from rfl, show mDiagNeg 1 1 = (-1 : ℝ) from rfl,
      show mDiagNeg 2 2 = (-1 : ℝ) from rfl]
    norm_num
  · apply (set_neg_branch_guard mSZero).2
    have hi1 : (if mSZero 1 1 > mSZero 0 0 then (1 : Fin 3) else 0) = 0 := by
      rw [show mSZero 1 1 = (3 / 2 : ℝ) from rfl, show mSZero 0 0 = (2 : ℝ) from rfl]
      rw [if_neg (by norm_num)]
    have hI : shepperdI mSZero = 0 := by
      simp only [shepperdI]
      rw [hi1, castSucc0,
        show mSZero 2 2 = (3 / 2 : ℝ) from rfl, show mSZero 0 0 = (2 : ℝ) from rfl]
      rw [if_neg (by norm_num)]
    unfold shepperdS
    rw [hI]
    show Real.sqrt (mSZero 0 0 - (mSZero 1 1 + mSZero 2 2) + 1) = 0
    rw [show mSZero 0 0 = (2 : ℝ) from rfl, show mSZero 1 1 = (3 / 2 : ℝ) from rfl,
      show mSZero 2 2 = (3 / 2 : ℝ) from rfl]
    rw [show (2 : ℝ) - (3 / 2 + 3 / 2) + 1 = 0 by norm_num]
    exact Real.sqrt_zero

/-! ## Matrix entry lemmas for `Quat.get` (claim C3) -/

/-- Entry (0,0) of the matrix produced by `Quat::get`. -/
theorem get00 (q : Quat) :
    Quat.get q 0 0 = 1 - (q.y * (q.y + q.y) + q.z * (q.z + q.z)) := rfl

/-- Entry (0,1) of the matrix produced by `Quat::get`. -/
theorem get01 (q : Quat) :
    Quat.get q 0 1 = q.x * (q.y + q.y) - q.w * (q.z + q.z) := rfl

/-- Entry (0,2) of the matrix produced by `Quat::get`. -/
theorem get02 (q : Quat) :
    Quat.get q 0 2 = q.x * (q.z + q.z) + q.w * (q.y + q.y) := rfl

/-- Entry (1,0) of the matrix produced by `Quat::get`. -/
theorem get10 (q : Quat) :
    Quat.get q 1 0 = q.x * (q.y + q.y) + q.w * (q.z + q.z) := rfl

/-- Entry (1,1) of the matrix produced by `Quat::get`. -/
theorem get11 (q : Quat) :
    Quat.get q 1 1 = 1 - (q.x * (q.x + q.x) + q.z * (q.z + q.z)) := rfl

/-- Entry (1,2) of the matrix produced by `Quat::get`. -/
theorem get12 (q : Quat) :
    Quat.get q 1 2 = q.y * (q.z + q.z) - q.w * (q.x + q.x) := rfl

/-- Entry (2,0) of the matrix produced by `Quat::get`. -/
theorem get20 (q : Quat) :
    Quat.get q 2 0 = q.x * (q.z + q.z) - q.w * (q.y + q.y) := rfl

/-- Entry (2,1) of the matrix produced by `Quat::get`. -/
theorem get21 (q : Quat) :
    Quat.get q 2 1 = q.y * (q.z + q.z) + q.w * (q.x + q.x) := rfl

/-- Entry (2,2) of the matrix produced by `Quat::get`. -/
theorem get22 (q : Quat) :
    Quat.get q 2 2 = 1 - (q.x * (q.x + q.x) + q.y * (q.y + q.y)) := rfl

/-! ## Per-index evaluation of `Quat.setNeg` (claim C3) -/

/-- `Quat.setNeg` when the selected diagonal index is `0` (`j=1`, `k=2`). -/
theorem setNeg_i0 (m : Mat4) (hI : shepperdI m = 0) :
    Quat.setNeg m =
      ⟨shepperdS m * 0.5,
       (m 0 1 + m 1 0) * (if shepperdS m ≠ 0 then 0.5 / shepperdS m else shepperdS m),
       (m 0 2 + m 2 0) * (if shepperdS m ≠ 0 then 0.5 / shepperdS m else shepperdS m),
       (m 1 2 - m 2 1) * (if shepperdS m ≠ 0 then 0.5 / shepperdS m else shepperdS m)⟩ := by
  simp only [Quat.setNeg]
  rw [hI]
  rfl

/-- `Quat.setNeg` when the selected diagonal index is `1` (`j=2`, `k=0`). -/
theorem setNeg_i1 (m : Mat4) (hI : shepperdI m = 1) :
    Quat.setNeg m =
      ⟨(m 1 0 + m 0 1) * (if shepperdS m ≠ 0 then 0.5 / shepperdS m else shepperdS m),
       shepperdS m * 0.5,
       (m 1 2 + m 2 1) * (if shepperdS m ≠ 0 then 0.5 / shepperdS m else shepperdS m),
       (m 2 0 - m 0 2) * (if shepperdS m ≠ 0 then 0.5 / shepperdS m else shepperdS m)⟩ := by
  simp only [Quat.setNeg]
  rw [hI]
  rfl

/-- `Quat.setNeg` when the selected diagonal index is `2` (`j=0`, `k=1`). -/
theorem setNeg_i2 (m : Mat4) (hI : shepperdI m = 2) :
    Quat.setNeg m =
      ⟨(m 2 0 + m 0 2) * (if shepperdS m ≠ 0 then 0.5 / shepperdS m else shepperdS m),
       (m 2 1 + m 1 2) * (if shepperdS m ≠ 0 then 0.5 / shepperdS m else shepperdS m),
       shepperdS m * 0.5,
       (m 0 1 - m 1 0) * (if shepperdS m ≠ 0 then 0.5 / shepperdS m else shepperdS m)⟩ := by
  simp only [Quat.setNeg]
  rw [hI]
  rfl

/-! ## Claim C3 -/

set_option maxHeartbeats 1000000 in
/-- Claim C3 (amended): for every unit quaternion `q`, the round trip
`Quat::set(Quat::get(q))` yields the **conjugate** `(−x,−y,−z,w)` or its
negation `(x,y,z,−w)` — not `q` or `−q` as claimed: `get` writes the
rotation matrix in the column-vector convention while `set` reads it in
the transposed (row-vector) convention, so the vector part comes back
negated relative to `w`. -/
theorem set_get_roundtrip (q : Quat) (hq : quatNorm q = 1) :
    Quat.set (Quat.get q) = ⟨-q.x, -q.y, -q.z, q.w⟩ ∨
    Quat.set (Quat.get q) = ⟨q.x, q.y, q.z, -q.w⟩ := by
  simp only [quatNorm] at hq
  have h1 : q.x * q.x + q.y * q.y + q.z * q.z + q.w * q.w = 1 := Real.sqrt_eq_one.mp hq
  have htr : Quat.get q 0 0 + Quat.get q 1 1 + Quat.get q 2 2
      = 4 * (q.w * q.w) - 1 := by
    rw [get00, get11, get22]
    linear_combination (-4 : ℝ) * h1
  by_cases hpos : Quat.get q 0 0 + Quat.get q 1 1 + Quat.get q 2 2 > 0
  · have hw2 : 1 / 4 < q.w * q.w := by rw [htr] at hpos; linarith
    have hw : q.w ≠ 0 := by
      intro h0; rw [h0] at hw2; norm_num at hw2
    have hs : Real.sqrt (Quat.get q 0 0 + Quat.get q 1 1 + Quat.get q 2 2 + 1)
        = 2 * |q.w| := by
      rw [htr, show 4 * (q.w * q.w) - 1 + 1 = (2 * |q.w|) ^ 2 by
        rw [mul_pow, sq_abs]; ring]
      exact Real.sqrt_sq (by positivity)
    simp only [Quat.set]
    rw [if_pos hpos, hs, get12, get21, get20, get02, get01, get10]
    rcases abs_cases q.w with ⟨hab, hsign⟩ | ⟨hab, hsign⟩ <;> rw [hab]
    · have hwpos : 0 < q.w := lt_of_le_of_ne hsign (Ne.symm hw)
      left
      simp only [Quat.mk.injEq]
      refine ⟨?_, ?_, ?_, ?_⟩ <;> field_simp <;> ring
    · right
      simp only [Quat.mk.injEq]
      refine ⟨?_, ?_, ?_, ?_⟩ <;> field_simp <;> ring
  · have htr2 : q.w * q.w ≤ 1 / 4 := by
      push_neg at hpos; rw [htr] at hpos; linarith
    by_cases hA : Quat.get q 1 1 > Quat.get q 0 0
    · by_cases hB : Quat.get q 2 2 > Quat.get q 1 1
      · -- i = 2, reached with z² > y² ≥ 0
        have hI : shepperdI (Quat.get q) = 2 := by
          simp only [shepperdI]
          rw [if_pos hA, castSucc1, if_pos hB]
        have hz2 : q.y * q.y < q.z * q.z := by
          rw [get22, get11] at hB; nlinarith [hB]
        have hz : q.z ≠ 0 := by
          intro h0; rw [h0] at hz2; nlinarith [mul_self_nonneg q.y]
        have harg : Quat.get q 2 2 - (Quat.get q 0 0 + Quat.get q 1 1) + 1
            = (2 * |q.z|) ^ 2 := by
          rw [get22, get00, get11, mul_pow, sq_abs]; ring
        have hS : shepperdS (Quat.get q) = 2 * |q.z| := by
          unfold shepperdS
          rw [hI]
          show Real.sqrt (Quat.get q 2 2 - (Quat.get q 0 0 + Quat.get q 1 1) + 1)
              = 2 * |q.z|
          rw [harg]
          exact Real.sqrt_sq (by positivity)
        have hSne : shepperdS (Quat.get q) ≠ 0 := by
          rw [hS]; exact mul_ne_zero two_ne_zero (abs_ne_zero.mpr hz)
        simp only [Quat.set]
        rw [if_neg hpos, setNeg_i2 _ hI, if_pos hSne, hS,
          get20, get02, get21, get12, get01, get10]
        rcases abs_cases q.z with ⟨hab, hsign⟩ | ⟨hab, hsign⟩ <;> rw [hab]
        · have hzpos : 0 < q.z := lt_of_le_of_ne hsign (Ne.symm hz)
          right
          simp only [Quat.mk.injEq]
          refine ⟨?_, ?_, ?_, ?_⟩ <;> (try field_simp) <;> ring
        · left
          simp only [Quat.mk.injEq]
          refine ⟨?_, ?_, ?_, ?_⟩ <;> (try field_simp) <;> ring
      · -- i = 1, reached with y² > x² ≥ 0
        have hI : shepperdI (Quat.get q) = 1 := by
          simp only [shepperdI]
          rw [if_pos hA, castSucc1, if_neg hB]
        have hy2 : q.x * q.x < q.y * q.y := by
          rw [get11, get00] at hA; nlinarith [hA]
        have hy : q.y ≠ 0 := by
          intro h0; rw [h0] at hy2; nlinarith [mul_self_nonneg q.x]
        have harg : Quat.get q 1 1 - (Quat.get q 2 2 + Quat.get q 0 0) + 1
            = (2 * |q.y|) ^ 2 := by
          rw [get11, get22, get00, mul_pow, sq_abs]; ring
        have hS : shepperdS (Quat.get q) = 2 * |q.y| := by
          unfold shepperdS
          rw [hI]
          show Real.sqrt (Quat.get q 1 1 - (Quat.get q 2 2 + Quat.get q 0 0) + 1)
              = 2 * |q.y|
          rw [harg]
          exact Real.sqrt_sq (by positivity)
        have hSne : shepperdS (Quat.get q) ≠ 0 := by
          rw [hS]; exact mul_ne_zero two_ne_zero (abs_ne_zero.mpr hy)
        simp only [Quat.set]
        rw [if_neg hpos, setNeg_i1 _ hI, if_pos hSne, hS,
          get10, get01, get12, get21, get20, get02]
        rcases abs_cases q.y with ⟨hab, hsign⟩ | ⟨hab, hsign⟩ <;> rw [hab]
        · have hypos : 0 < q.y := lt_of_le_of_ne hsign (Ne.symm hy)
          right
          simp only [Quat.mk.injEq]
          refine ⟨?_, ?_, ?_, ?_⟩ <;> (try field_simp) <;> ring
        · left
          simp only [Quat.mk.injEq]
          refine ⟨?_, ?_, ?_, ?_⟩ <;> (try field_simp) <;> ring
    · by_cases hB : Quat.get q 2 2 > Quat.get q 0 0
      · -- i = 2, reached with z² > x² ≥ 0
        have hI : shepperdI (Quat.get q) = 2 := by
          simp only [shepperdI]
          rw [if_neg hA, castSucc0, if_pos hB]
        have hz2 : q.x * q.x < q.z * q.z := by
          rw [get22, get00] at hB; nlinarith [hB]
        have hz : q.z ≠ 0 := by
          intro h0; rw [h0] at hz2; nlinarith [mul_self_nonneg q.x]
        have harg : Quat.get q 2 2 - (Quat.get q 0 0 + Quat.get q 1 1) + 1
            = (2 * |q.z|) ^ 2 := by
          rw [get22, get00, get11, mul_pow, sq_abs]; ring
        have hS : shepperdS (Quat.get q) = 2 * |q.z| := by
          unfold shepperdS
          rw [hI]
          show Real.sqrt (Quat.get q 2 2 - (Quat.get q 0 0 + Quat.get q 1 1) + 1)
              = 2 * |q.z|
          rw [harg]
          exact Real.sqrt_sq (by positivity)
        have hSne : shepperdS (Quat.get q) ≠ 0 := by
          rw [hS]; exact mul_ne_zero two_ne_zero (abs_ne_zero.mpr hz)
        simp only [Quat.set]
        rw [if_neg hpos, setNeg_i2 _ hI, if_pos hSne, hS,
          get20, get02, get21, get12, get01, get10]
        rcases abs_cases q.z with ⟨hab, hsign⟩ | ⟨hab, hsign⟩ <;> rw [hab]
        · have hzpos : 0 < q.z := lt_of_le_of_ne hsign (Ne.symm hz)
          right
          simp only [Quat.mk.injEq]
          refine ⟨?_, ?_, ?_, ?_⟩ <;> (try field_simp) <;> ring
        · left
          simp only [Quat.mk.injEq]
          refine ⟨?_, ?_, ?_, ?_⟩ <;> (try field_simp) <;> ring
      · -- i = 0, reached with x² ≥ y², x² ≥ z² and x² ≥ 1/4
        have hI : shepperdI (Quat.get q) = 0 := by
          simp only [shepperdI]
          rw [if_neg hA, castSucc0, if_neg hB]
        have hy2 : q.y * q.y ≤ q.x * q.x := by
          have hA' := not_lt.mp hA
          rw [get11, get00] at hA'; nlinarith [hA']
        have hz2 : q.z * q.z ≤ q.x * q.x := by
          have hB' := not_lt.mp hB
          rw [get22, get00] at hB'; nlinarith [hB']
        have hx2 : 1 / 4 ≤ q.x * q.x := by nlinarith [h1, htr2, hy2, hz2]
        have hx : q.x ≠ 0 := by
          intro h0; rw [h0] at hx2; norm_num at hx2
        have harg : Quat.get q 0 0 - (Quat.get q 1 1 + Quat.get q 2 2) + 1
            = (2 * |q.x|) ^ 2 := by
          rw [get00, get11, get22, mul_pow, sq_abs]; ring
        have hS : shepperdS (Quat.get q) = 2 * |q.x| := by
          unfold shepperdS
          rw [hI]
          show Real.sqrt (Quat.get q 0 0 - (Quat.get q 1 1 + Quat.get q 2 2) + 1)
              = 2 * |q.x|
          rw [harg]
          exact Real.sqrt_sq (by positivity)
        have hSne : shepperdS (Quat.get q) ≠ 0 := by
          rw [hS]; exact mul_ne_zero two_ne_zero (abs_ne_zero.mpr hx)
        simp only [Quat.set]
        rw [if_neg hpos, setNeg_i0 _ hI, if_pos hSne, hS,
          get01, get10, get02, get20, get12, get21]
        rcases abs_cases q.x with ⟨hab, hsign⟩ | ⟨hab, hsign⟩ <;> rw [hab]
        · have hxpos : 0 < q.x := lt_of_le_of_ne hsign (Ne.symm hx)
          right
          simp only [Quat.mk.injEq]
          refine ⟨?_, ?_, ?_, ?_⟩ <;> (try field_simp) <;> ring
        · left
          simp only [Quat.mk.injEq]
          refine ⟨?_, ?_, ?_, ?_⟩ <;> (try field_simp) <;> ring

/-- Witness for C3 at the unit quaternion `(3/5, 0, 0, 4/5)`. -/
theorem set_get_roundtrip_witness :
    quatNorm ⟨3 / 5, 0, 0, 4 / 5⟩ = 1 ∧
    (Quat.set (Quat.get ⟨3 / 5, 0, 0, 4 / 5⟩) = ⟨-(3 / 5), -0, -0, 4 / 5⟩ ∨
     Quat.set (Quat.get ⟨3 / 5, 0, 0, 4 / 5⟩) = ⟨3 / 5, 0, 0, -(4 / 5)⟩) := by
  have hn : quatNorm ⟨3 / 5, 0, 0, 4 / 5⟩ = 1 := by
    simp only [quatNorm]
    rw [show (3 / 5 : ℝ) * (3 / 5) + 0 * 0 + 0 * 0 + 4 / 5 * (4 / 5) = 1 by norm_num]
    exact Real.sqrt_one
  exact ⟨hn, set_get_roundtrip ⟨3 / 5, 0, 0, 4 / 5⟩ hn⟩

/-- Counterexample to C3 as stated: at the unit quaternion
`q = (3/5, 0, 0, 4/5)` the round trip `set(get(q))` evaluates to
`(−3/5, 0, 0, 4/5)`, which is neither `q` nor `−q`. -/
theorem set_get_roundtrip_counterexample :
    quatNorm ⟨3 / 5, 0, 0, 4 / 5⟩ = 1 ∧
    Quat.set (Quat.get ⟨3 / 5, 0, 0, 4 / 5⟩) ≠ ⟨3 / 5, 0, 0, 4 / 5⟩ ∧
    Quat.set (Quat.get ⟨3 / 5, 0, 0, 4 / 5⟩) ≠ ⟨-(3 / 5), -0, -0, -(4 / 5)⟩ := by
  have e00 : Quat.get (⟨3 / 5, 0, 0, 4 / 5⟩ : Quat) 0 0 = 1 := by
    rw [get00]; norm_num
  have e11 : Quat.get (⟨3 / 5, 0, 0, 4 / 5⟩ : Quat) 1 1 = 7 / 25 := by
    rw [get11]; norm_num
  have e22 : Quat.get (⟨3 / 5, 0, 0, 4 / 5⟩ : Quat) 2 2 = 7 / 25 := by
    rw [get22]; norm_num
  have e12 : Quat.get (⟨3 / 5, 0, 0, 4 / 5⟩ : Quat) 1 2 = -(24 / 25) := by
    rw [get12]; norm_num
  have e21 : Quat.get (⟨3 / 5, 0, 0, 4 / 5⟩ : Quat) 2 1 = 24 / 25 := by
    rw [get21]; norm_num
  have e20 : Quat.get (⟨3 / 5, 0, 0, 4 / 5⟩ : Quat) 2 0 = 0 := by
    rw [get20]; norm_num
  have e02 : Quat.get (⟨3 / 5, 0, 0, 4 / 5⟩ : Quat) 0 2 = 0 := by
    rw [get02]; norm_num
  have e01 : Quat.get (⟨3 / 5, 0, 0, 4 / 5⟩ : Quat) 0 1 = 0 := by
    rw [get01]; norm_num
  have e10 : Quat.get (⟨3 / 5, 0, 0, 4 / 5⟩ : Quat) 1 0 = 0 := by
    rw [get10]; norm_num
  have hval : Quat.set (Quat.get ⟨3 / 5, 0, 0, 4 / 5⟩) = ⟨-(3 / 5), 0, 0, 4 / 5⟩ := by
    simp only [Quat.set]
    rw [e00, e11, e22, e12, e21, e20, e02, e01, e10]
    rw [if_pos (by norm_num : (1 : ℝ) + 7 / 25 + 7 / 25 > 0)]
    rw [show (1 : ℝ) + 7 / 25 + 7 / 25 + 1 = (8 / 5) ^ 2 by norm_num,
      Real.sqrt_sq (by norm_num : (0 : ℝ) ≤ 8 / 5)]
    simp only [Quat.mk.injEq]
    refine ⟨by norm_num, by norm_num, by norm_num, by norm_num⟩
  refine ⟨?_, ?_, ?_⟩
  · simp only [quatNorm]
    rw [show (3 / 5 : ℝ) * (3 / 5) + 0 * 0 + 0 * 0 + 4 / 5 * (4 / 5) = 1 by norm_num]
    exact Real.sqrt_one
  · rw [hval]
    intro hc
    simp only [Quat.mk.injEq] at hc
    norm_num at hc
  · rw [hval]
    intro hc
    simp only [Quat.mk.injEq] at hc
    norm_num at hc
